import Mathlib

/-!
Verification of the go-osc OSC 1.0 codec, dispatcher and server loop.

The Go source is shallowly embedded over byte lists (`List Nat`, each entry a
byte value).  Machine integers are carried as their unsigned bit patterns
(`Nat`, truncated modulo 2^w exactly where the Go code converts), and the
IEEE-754 float arguments are carried as their raw 32/64-bit patterns, which is
exactly what `binary.Write`/`binary.Read` move over the wire.  A `bufio.Reader`
over a `bytes.Buffer` is embedded as the list of not-yet-consumed bytes.
Fallible Go functions return `GoResult`; a Go runtime panic (index out of
range, method call on a nil interface, `regexp.MustCompile` failure) is the
distinguished outcome `GoResult.panicked`.
-/

namespace GoOsc

/-- Byte strings: each element is one byte (0 ≤ b < 256). -/
abbrev Bytes := List Nat

/-- Error outcomes of the decode path.  `eof` stands for the io.EOF /
io.ErrUnexpectedEOF read failures; `invalidTypeInt` is the error
`binary.Read` returns when handed a platform-sized Go `int`, which is not a
fixed-size type; the remaining constructors correspond to the `errors.New` /
`fmt.Errorf` sites in the source. -/
inductive ReadErr where
  | eof
  | invalidTypeInt
  | unsupportedTypeTagString
  | unsupportedTypeTag (c : Nat)
  | invalidBundleTag
  | unsupportedPacket
  | fuelOut
  deriving DecidableEq, Repr

/-- Outcome of an embedded Go function: a value, a returned error, or a
runtime panic. -/
inductive GoResult (α : Type) where
  | ok (a : α)
  | err (e : ReadErr)
  | panicked
  deriving DecidableEq, Repr

/-- `padBytesNeeded` from osc.go: bytes needed to fill up to the next 4-byte
length.  Go: `4*(elementLen/4+1) - elementLen`. -/
def padBytesNeeded (elementLen : Nat) : Nat :=
  4 * (elementLen / 4 + 1) - elementLen

/-- `writePaddedString` from osc.go: the bytes appended to the buffer — the
string followed by `padBytesNeeded` NUL bytes (the source guards the pad write
with `numPadBytes > 0`). -/
def writePaddedString (str : Bytes) : Bytes :=
  let numPadBytes := padBytesNeeded str.length
  if numPadBytes > 0 then str ++ List.replicate numPadBytes 0 else str

/-- Big-endian bytes of the low `k` bytes of `v` (what `binary.Write` emits
for a fixed-size unsigned value; Go's into-int32/int64 conversions truncate,
which matches taking the low base-256 digits). -/
def beBytes : Nat → Nat → Bytes
  | 0, _ => []
  | k + 1, v => beBytes k (v / 256) ++ [v % 256]

/-- Value of a big-endian byte string. -/
def beVal (bs : Bytes) : Nat :=
  bs.foldl (fun a b => 256 * a + b) 0

/-- `writeBlob` from osc.go: 4-byte big-endian `int32(len(data))`, the data,
then `padBytesNeeded` NUL bytes (guarded by `numPadBytes > 0`, which always
holds). -/
def writeBlob (data : Bytes) : Bytes :=
  let numPadBytes := padBytesNeeded data.length
  beBytes 4 data.length ++ data ++
    (if numPadBytes > 0 then List.replicate numPadBytes 0 else [])

/-- `bufio.Reader.ReadString(0)`: split the stream at the first NUL byte,
returning the bytes before it and the stream after it; `none` when no NUL
exists (the source then sees a non-nil error). -/
def splitAtNul : Bytes → Option (Bytes × Bytes)
  | [] => none
  | b :: rest =>
    if b = 0 then some ([], rest)
    else (splitAtNul rest).map (fun p => (b :: p.1, p.2))

/-- `readPaddedString` from osc.go.  Returns the decoded string, the byte
count `n` the source reports (string length + delimiter + pad), and the
remaining stream.  The pad consumption uses `reader.Read`, which only fails
when no byte at all is available and otherwise consumes at most `padLen`
bytes (the source ignores the returned count). -/
def readPaddedString (s : Bytes) : GoResult (Bytes × Nat × Bytes) :=
  match splitAtNul s with
  | none => .err .eof
  | some (str, rest) =>
    let n := str.length + 1
    let padLen := padBytesNeeded str.length - 1
    if padLen > 0 then
      if rest.isEmpty then .err .eof
      else .ok (str, n + padLen, rest.drop padLen)
    else .ok (str, n, rest)

/-- `binary.Read` of a fixed-size big-endian `k`-byte value: succeeds exactly
when `k` bytes remain (`io.ReadFull` semantics), consuming them. -/
def readBE (k : Nat) (s : Bytes) : GoResult (Nat × Bytes) :=
  if k ≤ s.length then .ok (beVal (s.take k), s.drop k) else .err .eof

/-- `binary.Read(reader, binary.BigEndian, &blobLen)` where `blobLen` has the
platform-sized type `int`: encoding/binary rejects `int` as not fixed-size,
so this read fails on every input without consuming anything. -/
def binaryReadGoInt (_s : Bytes) : GoResult (Nat × Bytes) :=
  .err .invalidTypeInt

/-- `readBlob` from osc.go.  The length read into a plain `int` always fails,
so the remainder of the function (embedded below it for fidelity) is dead
code. -/
def readBlob (s : Bytes) : GoResult (Bytes × Nat × Bytes) :=
  match binaryReadGoInt s with
  | .err e => .err e
  | .panicked => .panicked
  | .ok (blobLen, s1) =>
    let n := 4 + blobLen
    if s1.isEmpty ∧ 0 < blobLen then .err .eof
    else
      let blob := s1.take blobLen
      let s2 := s1.drop blobLen
      let numPadBytes := padBytesNeeded blobLen
      if numPadBytes > 0 then
        if s2.isEmpty then .err .eof
        else .ok (blob, n + numPadBytes, s2.drop numPadBytes)
      else .ok (blob, n, s2)

/-- The closed argument set of a Message.  The `interface{}` values the
source accepts in its encode/decode switches: nil, bool, int32, int64,
float32, float64, string, []byte blob, Timetag.  Numeric arguments carry
their unsigned bit patterns; the Timetag (whose Go implementation is outside
the given sources) is carried as its raw 64-bit wire value, per the spec.  -/
inductive OscArg where
  | nilArg
  | boolArg (b : Bool)
  | int32Arg (v : Nat)
  | int64Arg (v : Nat)
  | float32Arg (bits : Nat)
  | float64Arg (bits : Nat)
  | stringArg (s : Bytes)
  | blobArg (d : Bytes)
  | timetagArg (t : Nat)
  deriving DecidableEq, Repr

/-- `Message` from message.go: OSC address plus ordered argument list (the
`net.Addr` source-address field is transport metadata, not wire content). -/
structure Message where
  address : Bytes
  arguments : List OscArg
  deriving DecidableEq, Repr

/-- Type-tag character the `MarshalBinary` switch appends for each argument
(ASCII codes: T=84 F=70 N=78 i=105 f=102 s=115 b=98 h=104 d=100 t=116). -/
def typeTagChar : OscArg → Nat
  | .boolArg true => 84
  | .boolArg false => 70
  | .nilArg => 78
  | .int32Arg _ => 105
  | .float32Arg _ => 102
  | .stringArg _ => 115
  | .blobArg _ => 98
  | .int64Arg _ => 104
  | .float64Arg _ => 100
  | .timetagArg _ => 116

/-- Payload bytes the `MarshalBinary` switch writes for each argument.
T/F/N write nothing; numeric types are written big-endian at their fixed
widths; strings use `writePaddedString`; blobs use `writeBlob`; a Timetag
writes its 8-byte `ToByteArray`. -/
def argPayload : OscArg → Bytes
  | .boolArg _ => []
  | .nilArg => []
  | .int32Arg v => beBytes 4 v
  | .float32Arg bits => beBytes 4 bits
  | .stringArg s => writePaddedString s
  | .blobArg d => writeBlob d
  | .int64Arg v => beBytes 8 v
  | .float64Arg v => beBytes 8 v
  | .timetagArg t => beBytes 8 t

/-- The argument loop of `MarshalBinary`: one pass over the arguments,
appending one type-tag character and that argument's payload bytes per
iteration. -/
def marshalArgs : List OscArg → Bytes × Bytes
  | [] => ([], [])
  | a :: as =>
    let r := marshalArgs as
    (typeTagChar a :: r.1, argPayload a ++ r.2)

/-- `Message.MarshalBinary`: padded address, padded type-tag string (a comma,
ASCII 44, followed by one tag character per argument), then the concatenated
argument payloads. -/
def marshalBinary (m : Message) : Bytes :=
  let r := marshalArgs m.arguments
  writePaddedString m.address ++ writePaddedString (44 :: r.1) ++ r.2

/-- The tag loop of `readArguments` from osc.go: for each remaining tag
character, decode the corresponding payload and append the argument.  The
stream, the accumulated arguments of `msg`, and the `*start` counter are
threaded explicitly.  The `t` case reproduces the source verbatim: a failed
8-byte read executes `return nil`, i.e. overall success with the argument
dropped (the failed `io.ReadFull` has drained the remaining bytes).
Iteration is over the type-tag string's characters; for the ASCII tag bytes
the source accepts this coincides with byte iteration, and any other leading
byte falls into the `default` error case either way. -/
def processTags : List Nat → Bytes → List OscArg → Nat → GoResult (List OscArg × Bytes × Nat)
  | [], s, acc, st => .ok (acc, s, st)
  | c :: cs, s, acc, st =>
    if c = 105 then
      match readBE 4 s with
      | .ok (v, s1) => processTags cs s1 (acc ++ [.int32Arg v]) (st + 4)
      | .err e => .err e
      | .panicked => .panicked
    else if c = 104 then
      match readBE 8 s with
      | .ok (v, s1) => processTags cs s1 (acc ++ [.int64Arg v]) (st + 8)
      | .err e => .err e
      | .panicked => .panicked
    else if c = 102 then
      match readBE 4 s with
      | .ok (v, s1) => processTags cs s1 (acc ++ [.float32Arg v]) (st + 4)
      | .err e => .err e
      | .panicked => .panicked
    else if c = 100 then
      match readBE 8 s with
      | .ok (v, s1) => processTags cs s1 (acc ++ [.float64Arg v]) (st + 8)
      | .err e => .err e
      | .panicked => .panicked
    else if c = 115 then
      match readPaddedString s with
      | .ok (str, _, s1) =>
        processTags cs s1 (acc ++ [.stringArg str]) (st + str.length + padBytesNeeded str.length)
      | .err e => .err e
      | .panicked => .panicked
    else if c = 98 then
      match readBlob s with
      | .ok (buf, n, s1) => processTags cs s1 (acc ++ [.blobArg buf]) (st + n)
      | .err e => .err e
      | .panicked => .panicked
    else if c = 116 then
      match readBE 8 s with
      | .ok (v, s1) => processTags cs s1 (acc ++ [.timetagArg v]) (st + 8)
      | .err _ => .ok (acc, [], st)
      | .panicked => .panicked
    else if c = 84 then processTags cs s (acc ++ [.boolArg true]) st
    else if c = 70 then processTags cs s (acc ++ [.boolArg false]) st
    else .err (.unsupportedTypeTag c)

/-- `readArguments` from osc.go: read the padded type-tag string, then index
its first character.  On an empty decoded type-tag string the Go expression
`typetags[0]` is an index out of range: a runtime panic, not an error
return. -/
def readArguments (s : Bytes) (st : Nat) : GoResult (List OscArg × Bytes × Nat) :=
  match readPaddedString s with
  | .err e => .err e
  | .panicked => .panicked
  | .ok (typetags, n, s1) =>
    match typetags with
    | [] => .panicked
    | c :: rest =>
      if c ≠ 44 then .err .unsupportedTypeTagString
      else processTags rest s1 [] (st + n)

/-- `readMessage` from osc.go: padded address, then the arguments, into a
fresh `Message` (whose argument list starts empty). -/
def readMessage (s : Bytes) (st : Nat) : GoResult (Message × Bytes × Nat) :=
  match readPaddedString s with
  | .err e => .err e
  | .panicked => .panicked
  | .ok (addr, n, s1) =>
    match readArguments s1 (st + n) with
    | .err e => .err e
    | .panicked => .panicked
    | .ok (args, s2, st2) => .ok (⟨addr, args⟩, s2, st2)

/-- `Bundle` from the bundle source file: timetag plus ordered child messages
and nested bundles (the source-address field is transport metadata). -/
inductive BundleVal where
  | mk (timetag : Nat) (messages : List Message) (bundles : List BundleVal)

/-- `Packet` values a decode can produce: a Message, a Bundle, or the nil
interface value that `readPacket` returns for an unrecognized leading byte. -/
inductive GoPacket where
  | msg (m : Message)
  | bndl (b : BundleVal)
  | nilPacket

/-- The `#bundle` start tag. -/
def bundleTag : Bytes := [35, 98, 117, 110, 100, 108, 101]

/-- `Bundle.Append`: a Message or Bundle is appended to the matching child
list; any other packet value (here: the nil interface) hits the `default`
case and yields an error. -/
def bundleAppend : BundleVal → GoPacket → Option BundleVal
  | .mk tt ms bs, .msg m => some (.mk tt (ms ++ [m]) bs)
  | .mk tt ms bs, .bndl b => some (.mk tt ms (bs ++ [b]))
  | _, .nilPacket => none

/-- Which of the three mutually recursive decode routines is running:
`readPacket`, `readBundle`, or the element loop inside `readBundle` (carrying
the bundle built so far).  The mutual recursion is embedded as one
fuel-indexed function so that it stays structurally recursive. -/
inductive DecodeMode where
  | pkt
  | bndl
  | loop (acc : BundleVal)

/-- `readPacket` / `readBundle` and the latter's element loop, from osc.go.
In `pkt` mode: peek one byte; `/` (47) starts a Message, `#` (35) starts a
Bundle, anything else returns the nil packet with no error.  In `bndl` mode:
padded `#bundle` tag, 8-byte timetag, then the loop.  In `loop` mode: while
`*start < end`, read a 4-byte element length, decode the nested packet, and
append it to the bundle (appending the nil packet is the `default` error case
of `Bundle.Append`).  The fuel only bounds the recursion, which the Go source
leaves unbounded; it never runs out on the inputs considered. -/
def readPacketGo : Nat → DecodeMode → Bytes → Nat → Nat → GoResult (GoPacket × Bytes × Nat)
  | 0, _, _, _, _ => .err .fuelOut
  | fuel + 1, .pkt, s, st, en =>
    match s with
    | [] => .err .eof
    | b :: _ =>
      if b = 47 then
        match readMessage s st with
        | .ok (m, s1, st1) => .ok (.msg m, s1, st1)
        | .err e => .err e
        | .panicked => .panicked
      else if b = 35 then readPacketGo fuel .bndl s st en
      else .ok (.nilPacket, s, st)
  | fuel + 1, .bndl, s, st, en =>
    match readPaddedString s with
    | .err e => .err e
    | .panicked => .panicked
    | .ok (startTag, n, s1) =>
      if startTag ≠ bundleTag then .err .invalidBundleTag
      else
        match readBE 8 s1 with
        | .err e => .err e
        | .panicked => .panicked
        | .ok (tt, s2) => readPacketGo fuel (.loop (.mk tt [] [])) s2 (st + n + 8) en
  | fuel + 1, .loop acc, s, st, en =>
    if st < en then
      match readBE 4 s with
      | .err e => .err e
      | .panicked => .panicked
      | .ok (_, s1) =>
        match readPacketGo fuel .pkt s1 (st + 4) en with
        | .err e => .err e
        | .panicked => .panicked
        | .ok (pkt, s2, st2) =>
          match bundleAppend acc pkt with
          | none => .err .unsupportedPacket
          | some acc2 => readPacketGo fuel (.loop acc2) s2 st2 en
    else .ok (.bndl acc, s, st)

/-- `Server.ReceivePacket` applied to one received datagram: the source reads
into a 65535-byte zero-initialized buffer and decodes that whole buffer with
`end` set to the number of bytes actually received, so the decoder sees the
datagram followed by trailing zero bytes.  After a successful decode it calls
`pkt.SetAddr(addr)`; when `readPacket` returned the nil interface (unknown
leading byte) that method call is a nil-pointer dereference: a panic. -/
def receivePacket (datagram : Bytes) : GoResult GoPacket :=
  let buffer := datagram ++ List.replicate (65535 - datagram.length) 0
  match readPacketGo (datagram.length + 1) .pkt buffer 0 datagram.length with
  | .err e => .err e
  | .panicked => .panicked
  | .ok (.nilPacket, _, _) => .panicked
  | .ok (p, _, _) => .ok p

/-- Fueled worker for `strings.Replace`; the fuel dominates the length of the
scanned string, so it never runs out when seeded with `s.length`. -/
def strReplaceAllF : Nat → Bytes → Bytes → Bytes → Bytes
  | 0, s, _, _ => s
  | fuel + 1, s, old, new =>
    match s with
    | [] => []
    | c :: rest =>
      if 0 < old.length ∧ old.isPrefixOf (c :: rest) = true then
        new ++ strReplaceAllF fuel ((c :: rest).drop old.length) old new
      else
        c :: strReplaceAllF fuel rest old new

/-- `strings.Replace(s, old, new, -1)`: replace every non-overlapping
occurrence of `old` in `s`, left to right, without rescanning the
replacement text. -/
def strReplaceAll (s old new : Bytes) : Bytes :=
  strReplaceAllF s.length s old new

/-- The translation table of `getRegEx`, in source order: escape `.` `(` `)`,
then `*` to `.*`, `{` to `(`, `,` to `|`, `}` to `)`, `?` to `.`
(ASCII: . 46, ( 40, ) 41, * 42, { 123, , 44, } 125, ? 63, \ 92, | 124). -/
def regexTranslations : List (Bytes × Bytes) :=
  [([46], [92, 46]), ([40], [92, 40]), ([41], [92, 41]), ([42], [46, 42]),
   ([123], [40]), ([44], [124]), ([125], [41]), ([63], [46])]

/-- The replacement loop of `getRegEx`: each translation applied to the whole
pattern in turn. -/
def getRegExPattern (pattern : Bytes) : Bytes :=
  regexTranslations.foldl (fun p trs => strReplaceAll p trs.1 trs.2) pattern

/-- Regular expressions over bytes, the fragment Go's regexp engine is fed by
`getRegEx`: literals, `.` (any byte except newline), character classes,
concatenation, alternation and star. -/
inductive RE where
  | emp
  | eps
  | lit (b : Nat)
  | anyc
  | cls (neg : Bool) (ranges : List (Nat × Nat))
  | cat (r1 r2 : RE)
  | alt (r1 r2 : RE)
  | star (r : RE)
  deriving DecidableEq, Repr

/-- Does the regex accept the empty string? -/
def nullable : RE → Bool
  | .emp => false
  | .eps => true
  | .lit _ => false
  | .anyc => false
  | .cls _ _ => false
  | .cat a b => nullable a && nullable b
  | .alt a b => nullable a || nullable b
  | .star _ => true

/-- Does byte `c` fall in the (possibly negated) character class? -/
def clsMatch (neg : Bool) (ranges : List (Nat × Nat)) (c : Nat) : Bool :=
  (ranges.any fun p => decide (p.1 ≤ c) && decide (c ≤ p.2)) != neg

/-- Brzozowski derivative of a regex with respect to one byte. -/
def deriv : RE → Nat → RE
  | .emp, _ => .emp
  | .eps, _ => .emp
  | .lit b, c => if c = b then .eps else .emp
  | .anyc, c => if c = 10 then .emp else .eps
  | .cls neg ranges, c => if clsMatch neg ranges c then .eps else .emp
  | .cat a b, c =>
    if nullable a then .alt (.cat (deriv a c) b) (deriv b c)
    else .cat (deriv a c) b
  | .alt a b, c => .alt (deriv a c) (deriv b c)
  | .star r, c => .cat (deriv r c) (.star r)

/-- Does some prefix of `s` match the regex? -/
def matchesFrom : RE → Bytes → Bool
  | r, [] => nullable r
  | r, c :: rest => nullable r || matchesFrom (deriv r c) rest

/-- `Regexp.MatchString`: does the regex match anywhere in `s` (some
substring)? -/
def reMatchString : RE → Bytes → Bool
  | r, [] => nullable r
  | r, c :: rest => matchesFrom r (c :: rest) || reMatchString r rest

/-- Items of a character class body, up to the closing `]` (93): escapes,
`a-b` ranges, single bytes.  `none` when the class is never closed. -/
def parseClsItems : Bytes → Option (List (Nat × Nat) × Bytes)
  | [] => none
  | 93 :: rest => some ([], rest)
  | 92 :: b :: rest => (parseClsItems rest).map (fun p => ((b, b) :: p.1, p.2))
  | b :: 45 :: c :: rest =>
    if c = 93 then
      (parseClsItems (45 :: c :: rest)).map (fun p => ((b, b) :: p.1, p.2))
    else (parseClsItems rest).map (fun p => ((b, c) :: p.1, p.2))
  | b :: rest => (parseClsItems rest).map (fun p => ((b, b) :: p.1, p.2))

/-- Which level of the regex grammar is being parsed: alternation,
concatenation (with the regex accumulated so far), or a single atom.  The
mutually recursive descent is embedded as one fuel-indexed function so that
it stays structurally recursive. -/
inductive ParseMode where
  | alternation
  | seq (acc : RE)
  | atom

/-- Recursive-descent parser for the regex fragment: alternation level —
concatenations separated by `|` (124); concatenation level — a run of atoms,
each with an optional postfix `*` (42), `+` (43) or `?` (63), where a
repetition operator with no operand is a compile error as in Go's regexp;
atom level — a group `( )` (40/41), an escaped literal `\b` (92), the
any-byte `.` (46), a character class `[ ]` (91, optionally negated by
`^` 94), or a literal byte. -/
def parseRE : Nat → ParseMode → Bytes → Option (RE × Bytes)
  | 0, _, _ => none
  | fuel + 1, .alternation, s =>
    match parseRE fuel (.seq .eps) s with
    | none => none
    | some (r, rest) =>
      match rest with
      | 124 :: rest2 =>
        match parseRE fuel .alternation rest2 with
        | none => none
        | some (r2, rest3) => some (.alt r r2, rest3)
      | _ => some (r, rest)
  | fuel + 1, .seq acc, s =>
    match s with
    | [] => some (acc, [])
    | 124 :: rest => some (acc, 124 :: rest)
    | 41 :: rest => some (acc, 41 :: rest)
    | 42 :: _ => none
    | 43 :: _ => none
    | 63 :: _ => none
    | s =>
      match parseRE fuel .atom s with
      | none => none
      | some (a, rest) =>
        match rest with
        | 42 :: rest2 => parseRE fuel (.seq (.cat acc (.star a))) rest2
        | 43 :: rest2 => parseRE fuel (.seq (.cat acc (.cat a (.star a)))) rest2
        | 63 :: rest2 => parseRE fuel (.seq (.cat acc (.alt a .eps))) rest2
        | _ => parseRE fuel (.seq (.cat acc a)) rest
  | fuel + 1, .atom, s =>
    match s with
    | [] => none
    | 40 :: rest =>
      match parseRE fuel .alternation rest with
      | none => none
      | some (r, rest2) =>
        match rest2 with
        | 41 :: rest3 => some (r, rest3)
        | _ => none
    | 92 :: b :: rest => some (.lit b, rest)
    | [92] => none
    | 46 :: rest => some (.anyc, rest)
    | 91 :: 94 :: rest =>
      match parseClsItems rest with
      | none => none
      | some (items, rest2) =>
        if items.isEmpty then none else some (.cls true items, rest2)
    | 91 :: rest =>
      match parseClsItems rest with
      | none => none
      | some (items, rest2) =>
        if items.isEmpty then none else some (.cls false items, rest2)
    | b :: rest => some (.lit b, rest)

/-- `regexp.MustCompile` on the translated pattern: `none` models the panic
on a pattern the engine rejects (unbalanced groups, dangling operators). -/
def compileGo (pattern : Bytes) : Option RE :=
  match parseRE (4 * pattern.length + 4) .alternation pattern with
  | some (r, []) => some r
  | _ => none

/-- `getRegEx` from osc.go followed by compilation. -/
def oscGetRegEx (pattern : Bytes) : Option RE :=
  compileGo (getRegExPattern pattern)

/-- `Message.Match`: the Message's own address is translated to a regular
expression and tested against the given (registered) address; `none` models
the `MustCompile` panic on an untranslatable address. -/
def oscMatch (msgAddr addr : Bytes) : Option Bool :=
  (oscGetRegEx msgAddr).map (fun r => reMatchString r addr)

/-- Registration errors of `AddMsgHandler` (the two `fmt.Errorf` sites). -/
inductive RegErr where
  | invalidCharacters
  | duplicateAddress
  deriving DecidableEq, Repr

/-- The characters `AddMsgHandler` forbids in a registered address:
`* ? , [ ] { } #` and space (ASCII 42 63 44 91 93 123 125 35 32). -/
def forbiddenAddrChars : Bytes := [42, 63, 44, 91, 93, 123, 125, 35, 32]

/-- `addressExists` from the server source: is the address already a key of
the handler registry?  The Go `map[string]Handler` is modelled as an
association list (its keys are kept unique by `AddMsgHandler`). -/
def addressExists (addr : Bytes) (handlers : List (Bytes × α)) : Bool :=
  handlers.any (fun p => p.1 == addr)

/-- `OSCDispatcher.AddMsgHandler`: reject an address containing a forbidden
character, then a duplicate registration, else insert; the registry is
returned unchanged alongside the error in both failure cases. -/
def addMsgHandler (handlers : List (Bytes × α)) (addr : Bytes) (handler : α) :
    List (Bytes × α) × Option RegErr :=
  if forbiddenAddrChars.any (fun c => addr.contains c) then
    (handlers, some .invalidCharacters)
  else if addressExists addr handlers then
    (handlers, some .duplicateAddress)
  else (handlers ++ [(addr, handler)], none)

/-- The Message branch of `OSCDispatcher.Dispatch`: iterate the registered
(address, handler) pairs and invoke each handler whose registered address the
Message's address pattern matches.  The result is the list of invoked
handlers in iteration order (Go map iteration order is unspecified; the
registry is modelled as a list).  A `Match` whose pattern fails to compile
panics via `MustCompile`. -/
def dispatchMessage : List (Bytes × α) → Bytes → GoResult (List α)
  | [], _ => .ok []
  | (a, h) :: rest, msgAddr =>
    match oscMatch msgAddr a with
    | none => .panicked
    | some true =>
      match dispatchMessage rest msgAddr with
      | .ok hs => .ok (h :: hs)
      | .err e => .err e
      | .panicked => .panicked
    | some false => dispatchMessage rest msgAddr

/-- One outcome of `ReceivePacket` as seen by the `Serve` loop: a packet, a
temporary `net.Error`, or any other error (which `Serve` returns). -/
inductive NetEvent where
  | pkt
  | tempErr
  | fatalErr (e : Nat)

/-- The backoff update in `Serve`: 5 ms (5000000 ns) on the first temporary
error, otherwise double, then cap at 1 s (1000000000 ns). -/
def serveStepDelay (tempDelay : Nat) : Nat :=
  let d := if tempDelay = 0 then 5000000 else tempDelay * 2
  if d > 1000000000 then 1000000000 else d

/-- The `Serve` loop over a script of receive outcomes: a temporary error
sleeps the updated delay and retries, a received packet resets the delay and
is dispatched concurrently, any other error stops the loop and is returned.
The result is the list of sleep durations (ns) and the returned error, `none`
while the script is exhausted with the loop still running. -/
def serveRun : Nat → List NetEvent → List Nat × Option Nat
  | _, [] => ([], none)
  | tempDelay, .tempErr :: evs =>
    let d := serveStepDelay tempDelay
    let r := serveRun d evs
    (d :: r.1, r.2)
  | _, .pkt :: evs => serveRun 0 evs
  | _, .fatalErr e :: _ => ([], some e)

/-- The validity condition of the round-trip claim on the address: non-empty,
beginning with `/` (47); NUL-freedom is additionally required because the
wire format delimits strings with NUL bytes. -/
def validAddress (a : Bytes) : Bool :=
  a.head? == some 47 && !a.contains 0

/-- Arguments whose encoding survives the decoder: nil is excluded (the
decoder has no case for tag `N`), blobs are excluded (`readBlob` always
fails), strings must be NUL-free, and numeric bit patterns must fit their
wire width. -/
def roundTripArg : OscArg → Bool
  | .nilArg => false
  | .blobArg _ => false
  | .boolArg _ => true
  | .int32Arg v => v < 2 ^ 32
  | .float32Arg v => v < 2 ^ 32
  | .int64Arg v => v < 2 ^ 64
  | .float64Arg v => v < 2 ^ 64
  | .timetagArg v => v < 2 ^ 64
  | .stringArg s => !s.contains 0

/-! ## Helper lemmas -/

theorem padBytesNeeded_pos (n : Nat) : 1 ≤ padBytesNeeded n := by
  unfold padBytesNeeded
  omega

theorem padBytesNeeded_le_four (n : Nat) : padBytesNeeded n ≤ 4 := by
  unfold padBytesNeeded
  omega

theorem writePaddedString_eq (s : Bytes) :
    writePaddedString s = s ++ List.replicate (padBytesNeeded s.length) 0 := by
  have h : 0 < padBytesNeeded s.length := padBytesNeeded_pos _
  simp only [writePaddedString, gt_iff_lt]
  rw [if_pos h]

theorem length_writePaddedString (s : Bytes) :
    (writePaddedString s).length = s.length + padBytesNeeded s.length := by
  rw [writePaddedString_eq]
  simp

theorem splitAtNul_append (s t : Bytes) (h : 0 ∉ s) :
    splitAtNul (s ++ 0 :: t) = some (s, t) := by
  induction s with
  | nil => simp [splitAtNul]
  | cons b rest ih =>
    have hb : b ≠ 0 := fun hb => h (hb ▸ List.mem_cons_self b rest)
    have hr : 0 ∉ rest := fun hm => h (List.mem_cons_of_mem _ hm)
    simp [splitAtNul, hb, ih hr]

theorem readPaddedString_marshal (s t : Bytes) (h : 0 ∉ s) :
    readPaddedString (writePaddedString s ++ t) =
      .ok (s, s.length + padBytesNeeded s.length, t) := by
  have hpos := padBytesNeeded_pos s.length
  obtain ⟨p, hp⟩ : ∃ p, padBytesNeeded s.length = p + 1 :=
    ⟨padBytesNeeded s.length - 1, by omega⟩
  rw [writePaddedString_eq, hp]
  have hsplit : (s ++ List.replicate (p + 1) 0) ++ t = s ++ 0 :: (List.replicate p 0 ++ t) := by
    simp [List.replicate_succ]
  rw [hsplit]
  unfold readPaddedString
  rw [splitAtNul_append s _ h]
  simp only []
  rw [hp]
  rcases Nat.eq_zero_or_pos p with hz | hpnz
  · subst hz
    simp
  · obtain ⟨q, hq⟩ : ∃ q, p = q + 1 := ⟨p - 1, by omega⟩
    have hemp : (List.replicate p 0 ++ t).isEmpty = false := by
      rw [hq, List.replicate_succ, List.cons_append]
      rfl
    have hdrop : (List.replicate p 0 ++ t).drop (p + 1 - 1) = t := by
      have h1 : p + 1 - 1 = (List.replicate p 0 : Bytes).length := by simp
      rw [h1, List.drop_left]
    have harith : s.length + 1 + (p + 1 - 1) = s.length + (p + 1) := by omega
    simp only [hemp, Bool.false_eq_true, if_false, if_pos (show p + 1 - 1 > 0 by omega),
      hdrop, harith]

theorem length_beBytes (k v : Nat) : (beBytes k v).length = k := by
  induction k generalizing v with
  | zero => rfl
  | succ k ih => simp [beBytes, ih]

theorem beVal_append_single (xs : Bytes) (b : Nat) :
    beVal (xs ++ [b]) = 256 * beVal xs + b := by
  simp [beVal, List.foldl_append]

theorem beVal_beBytes (k v : Nat) (h : v < 256 ^ k) : beVal (beBytes k v) = v := by
  induction k generalizing v with
  | zero =>
    simp [beBytes, beVal]
    omega
  | succ k ih =>
    have hdiv : v / 256 < 256 ^ k := by
      rw [Nat.div_lt_iff_lt_mul (by norm_num)]
      calc v < 256 ^ (k + 1) := h
        _ = 256 ^ k * 256 := by ring
    rw [beBytes, beVal_append_single, ih _ hdiv]
    omega

theorem readBE_marshal (k v : Nat) (t : Bytes) (h : v < 256 ^ k) :
    readBE k (beBytes k v ++ t) = .ok (v, t) := by
  unfold readBE
  have hlen : (beBytes k v).length = k := length_beBytes k v
  rw [if_pos (by simp [hlen])]
  rw [List.take_left' hlen, List.drop_left' hlen, beVal_beBytes k v h]

theorem marshalArgs_fst (args : List OscArg) :
    (marshalArgs args).1 = args.map typeTagChar := by
  induction args with
  | nil => rfl
  | cons a as ih => simp [marshalArgs, ih]

theorem marshalArgs_snd (args : List OscArg) :
    (marshalArgs args).2 = (args.map argPayload).flatten := by
  induction args with
  | nil => rfl
  | cons a as ih => simp [marshalArgs, ih]

theorem typeTagChar_ne_zero : ∀ a : OscArg, typeTagChar a ≠ 0
  | .nilArg => by simp [typeTagChar]
  | .boolArg true => by simp [typeTagChar]
  | .boolArg false => by simp [typeTagChar]
  | .int32Arg _ => by simp [typeTagChar]
  | .int64Arg _ => by simp [typeTagChar]
  | .float32Arg _ => by simp [typeTagChar]
  | .float64Arg _ => by simp [typeTagChar]
  | .stringArg _ => by simp [typeTagChar]
  | .blobArg _ => by simp [typeTagChar]
  | .timetagArg _ => by simp [typeTagChar]

theorem zero_not_mem_tagString (args : List OscArg) :
    (0 : Nat) ∉ (44 : Nat) :: args.map typeTagChar := by
  intro hmem
  rcases List.mem_cons.mp hmem with h44 | hmap
  · exact absurd h44 (by decide)
  · obtain ⟨a, _, ha⟩ := List.mem_map.mp hmap
    exact typeTagChar_ne_zero a ha


theorem processTags_marshal (args : List OscArg) (t : Bytes) :
    ∀ (acc : List OscArg) (st : Nat), (∀ a ∈ args, roundTripArg a = true) →
      processTags (args.map typeTagChar) ((args.map argPayload).flatten ++ t) acc st =
        .ok (acc ++ args, t, st + ((args.map argPayload).flatten).length) := by
  induction args with
  | nil =>
    intro acc st _
    simp [processTags]
  | cons a as ih =>
    intro acc st h
    have ha : roundTripArg a = true := h a (List.mem_cons_self _ _)
    have has : ∀ x ∈ as, roundTripArg x = true := fun x hx => h x (List.mem_cons_of_mem _ hx)
    cases a with
    | nilArg => simp [roundTripArg] at ha
    | blobArg d => simp [roundTripArg] at ha
    | boolArg b =>
      cases b with
      | true =>
        simp only [List.map_cons, List.flatten_cons, typeTagChar, argPayload, List.nil_append]
        simp only [processTags]
        norm_num
        rw [ih (acc ++ [OscArg.boolArg true]) st has]
        simp
      | false =>
        simp only [List.map_cons, List.flatten_cons, typeTagChar, argPayload, List.nil_append]
        simp only [processTags]
        norm_num
        rw [ih (acc ++ [OscArg.boolArg false]) st has]
        simp
    | int32Arg v =>
      have hv : v < 256 ^ 4 := by
        have h2 : v < 2 ^ 32 := by simpa [roundTripArg] using ha
        omega
      simp only [List.map_cons, List.flatten_cons, typeTagChar, argPayload, List.append_assoc]
      simp only [processTags]
      norm_num
      rw [readBE_marshal 4 v _ hv]
      simp only []
      rw [ih (acc ++ [OscArg.int32Arg v]) (st + 4) has]
      simp [length_beBytes]
      all_goals omega
    | int64Arg v =>
      have hv : v < 256 ^ 8 := by
        have h2 : v < 2 ^ 64 := by simpa [roundTripArg] using ha
        omega
      simp only [List.map_cons, List.flatten_cons, typeTagChar, argPayload, List.append_assoc]
      simp only [processTags]
      norm_num
      rw [readBE_marshal 8 v _ hv]
      simp only []
      rw [ih (acc ++ [OscArg.int64Arg v]) (st + 8) has]
      simp [length_beBytes]
      all_goals omega
    | float32Arg v =>
      have hv : v < 256 ^ 4 := by
        have h2 : v < 2 ^ 32 := by simpa [roundTripArg] using ha
        omega
      simp only [List.map_cons, List.flatten_cons, typeTagChar, argPayload, List.append_assoc]
      simp only [processTags]
      norm_num
      rw [readBE_marshal 4 v _ hv]
      simp only []
      rw [ih (acc ++ [OscArg.float32Arg v]) (st + 4) has]
      simp [length_beBytes]
      all_goals omega
    | float64Arg v =>
      have hv : v < 256 ^ 8 := by
        have h2 : v < 2 ^ 64 := by simpa [roundTripArg] using ha
        omega
      simp only [List.map_cons, List.flatten_cons, typeTagChar, argPayload, List.append_assoc]
      simp only [processTags]
      norm_num
      rw [readBE_marshal 8 v _ hv]
      simp only []
      rw [ih (acc ++ [OscArg.float64Arg v]) (st + 8) has]
      simp [length_beBytes]
      all_goals omega
    | timetagArg v =>
      have hv : v < 256 ^ 8 := by
        have h2 : v < 2 ^ 64 := by simpa [roundTripArg] using ha
        omega
      simp only [List.map_cons, List.flatten_cons, typeTagChar, argPayload, List.append_assoc]
      simp only [processTags]
      norm_num
      rw [readBE_marshal 8 v _ hv]
      simp only []
      rw [ih (acc ++ [OscArg.timetagArg v]) (st + 8) has]
      simp [length_beBytes]
      all_goals omega
    | stringArg s2 =>
      have hs : (0 : Nat) ∉ s2 := by
        simpa [roundTripArg] using ha
      simp only [List.map_cons, List.flatten_cons, typeTagChar, argPayload, List.append_assoc]
      simp only [processTags]
      norm_num
      rw [readPaddedString_marshal s2 _ hs]
      simp only []
      rw [ih (acc ++ [OscArg.stringArg s2]) (st + s2.length + padBytesNeeded s2.length) has]
      simp [length_writePaddedString]
      all_goals omega


/-! ## Claim theorems -/

/-- Claim C1 (amended): for every Message whose address is non-empty,
begins with `/` and is NUL-free, and whose arguments are drawn from bool,
int32, int64, float32, float64, NUL-free string and Timetag (nil and blob
excluded: the decoder has no case for tag `N`, and `readBlob` always fails),
decoding the bytes of `MarshalBinary` succeeds and returns the same address
and the same ordered, same-typed argument sequence, consuming the whole
encoding. -/

theorem c1_roundtrip_amended (m : Message) (haddr : validAddress m.address = true)
    (hargs : ∀ a ∈ m.arguments, roundTripArg a = true) :
    readMessage (marshalBinary m) 0 = .ok (m, [], (marshalBinary m).length) := by
  obtain ⟨addr, args⟩ := m
  have h0 : (0 : Nat) ∉ addr := by
    simp [validAddress] at haddr
    exact haddr.2
  have hm : marshalBinary ⟨addr, args⟩ =
      writePaddedString addr ++
        (writePaddedString (44 :: args.map typeTagChar) ++ (args.map argPayload).flatten) := by
    simp [marshalBinary, marshalArgs_fst, marshalArgs_snd, List.append_assoc]
  rw [hm]
  unfold readMessage
  rw [readPaddedString_marshal addr _ h0]
  simp only []
  unfold readArguments
  rw [readPaddedString_marshal _ _ (zero_not_mem_tagString args)]
  simp only []
  rw [if_neg (by simp)]
  conv_lhs =>
    rw [show (args.map argPayload).flatten = (args.map argPayload).flatten ++ []
      from (List.append_nil _).symm]
  rw [processTags_marshal args [] [] _ hargs]
  simp [length_writePaddedString]
  omega


/-- Witness for C1: the round-trip theorem applied to the concrete message
`/a` with arguments int32 3, string of bytes 104 105, and true. -/
theorem c1_roundtrip_witness :
    readMessage
        (marshalBinary ⟨[47, 97], [.int32Arg 3, .stringArg [104, 105], .boolArg true]⟩) 0 =
      .ok (⟨[47, 97], [.int32Arg 3, .stringArg [104, 105], .boolArg true]⟩, [],
        (marshalBinary ⟨[47, 97], [.int32Arg 3, .stringArg [104, 105], .boolArg true]⟩).length) :=
  c1_roundtrip_amended ⟨[47, 97], [.int32Arg 3, .stringArg [104, 105], .boolArg true]⟩
    (by decide) (by decide)

/-- Counterexample to C1 as stated: the message `/` with the single argument
nil is valid per the claim, yet decoding its encoding fails: `MarshalBinary`
emits type tag `N` (78) and `readArguments` has no case for it, so the decode
returns the unsupported-type-tag error instead of the message. -/
theorem c1_counterexample :
    validAddress [47] = true ∧
      readMessage (marshalBinary ⟨[47], [.nilArg]⟩) 0 = .err (.unsupportedTypeTag 78) :=
  ⟨rfl, rfl⟩

/-- Claim C2: the code under test has no declared-length bounds check at all:
`readBlob` reads the blob length into a platform-sized Go `int`, which
`binary.Read` rejects before any length comparison, so every call — here one
whose declared length 100 exceeds the 0 remaining bytes — fails with the
invalid-type error, not with a `MalformedLength` bounds error (no such check
or error exists in the source). -/
theorem c2_readBlob_no_bounds_check :
    readBlob [0, 0, 0, 100] = .err .invalidTypeInt ∧
      ∀ s : Bytes, readBlob s = .err .invalidTypeInt :=
  ⟨rfl, fun _ => rfl⟩

/-- Claim C3: two datagrams whose contents panic the receive path rather
than producing an error or packet: a datagram starting with neither `/` nor
`#` makes `readPacket` return the nil interface with a nil error, after which
`ReceivePacket` calls `SetAddr` on nil and panics; and a datagram whose
decoded type-tag string is empty panics at the `typetags[0]` index in
`readArguments`. -/
theorem c3_receive_panics :
    receivePacket [120] = .panicked ∧
      receivePacket [47, 0, 0, 0, 0, 0, 0, 0] = .panicked :=
  ⟨rfl, rfl⟩

/-- Claim C8: `writePaddedString` writes the string followed by exactly
`padBytesNeeded` zero bytes, where `padBytesNeeded n = 4*(n/4+1) - n` is
always between 1 and 4 inclusive, so the total length is a multiple of 4 and
at least one more than the string's length. -/
theorem c8_writePaddedString_padding (s : Bytes) :
    writePaddedString s = s ++ List.replicate (padBytesNeeded s.length) 0 ∧
    padBytesNeeded s.length = 4 * (s.length / 4 + 1) - s.length ∧
    1 ≤ padBytesNeeded s.length ∧ padBytesNeeded s.length ≤ 4 ∧
    (writePaddedString s).length % 4 = 0 ∧
    s.length + 1 ≤ (writePaddedString s).length := by
  refine ⟨writePaddedString_eq s, rfl, padBytesNeeded_pos _, padBytesNeeded_le_four _, ?_, ?_⟩
  · rw [length_writePaddedString]
    unfold padBytesNeeded
    omega
  · rw [length_writePaddedString]
    have := padBytesNeeded_pos s.length
    omega


theorem readBE_ne_panicked (k : Nat) (s : Bytes) : readBE k s ≠ .panicked := by
  unfold readBE
  split <;> simp

theorem readPaddedString_ne_panicked (s : Bytes) : readPaddedString s ≠ .panicked := by
  unfold readPaddedString
  rcases h : splitAtNul s with _ | ⟨str, rest⟩
  · simp
  · simp only []
    split
    · split <;> simp
    · simp


theorem splitAtNul_eq_none (s : Bytes) (h : (0 : Nat) ∉ s) : splitAtNul s = none := by
  induction s with
  | nil => rfl
  | cons b rest ih =>
    have hb : b ≠ 0 := fun hb => h (hb ▸ List.mem_cons_self _ _)
    have hr : (0 : Nat) ∉ rest := fun hm => h (List.mem_cons_of_mem _ hm)
    simp [splitAtNul, hb, ih hr]

/-- Claim C5 (amended): whenever the decoded type-tag string is non-empty
and does not begin with `,` (44), `readArguments` returns the
invalid-type-tag-string error; the empty decoded type-tag string is excluded
because the source then panics (see the counterexample). -/
theorem c5_nonempty_typetag_error (s tt : Bytes) (n : Nat) (rest : Bytes) (st : Nat)
    (h : readPaddedString s = .ok (tt, n, rest)) (hne : tt ≠ [])
    (hc : tt.head? ≠ some 44) :
    readArguments s st = .err .unsupportedTypeTagString := by
  unfold readArguments
  rw [h]
  cases tt with
  | nil => exact absurd rfl hne
  | cons c cs =>
    have hcc : c ≠ 44 := by simpa using hc
    simp only []
    rw [if_pos hcc]


/-- Witness for C5: the input whose decoded type-tag string is the two bytes
97 98 (no leading comma) produces the error. -/
theorem c5_witness :
    readArguments [97, 98, 0, 0] 0 = .err .unsupportedTypeTagString :=
  c5_nonempty_typetag_error [97, 98, 0, 0] [97, 98] 4 [] 0 rfl (by decide) (by decide)

/-- Counterexample to C5 as stated: the input of four NUL bytes decodes to
the empty type-tag string, which also does not begin with `,`, yet
`readArguments` does not return an error — the `typetags[0]` index panics. -/
theorem c5_counterexample :
    readPaddedString [0, 0, 0, 0] = .ok ([], 4, []) ∧
      readArguments [0, 0, 0, 0] 0 = .panicked :=
  ⟨rfl, rfl⟩

/-- Claim C9 (amended): `readBlob` fails on every input with the
invalid-type error (`binary.Read` rejects the platform-sized `int` the length
is read into), and consequently decoding fails for every tag list that
contains `b` (98) but no `t` (116).  The `t` exception is forced by the
counterexample: a failed timetag read makes the argument loop return success
early, skipping a later `b`. -/
theorem c9_blob_decode_fails :
    (∀ s : Bytes, readBlob s = .err .invalidTypeInt) ∧
      ∀ (ts : List Nat) (s : Bytes) (acc : List OscArg) (st : Nat),
        98 ∈ ts → 116 ∉ ts → ∃ e, processTags ts s acc st = .err e := by
  constructor
  · intro s
    rfl
  · intro ts
    induction ts with
    | nil =>
      intro s acc st hb _
      exact absurd hb (List.not_mem_nil _)
    | cons c cs ih =>
      intro s acc st hb ht
      have hct : c ≠ 116 := fun he => ht (he ▸ List.mem_cons_self _ _)
      have htcs : (116 : Nat) ∉ cs := fun hm => ht (List.mem_cons_of_mem _ hm)
      by_cases hc98 : c = 98
      · subst hc98
        exact ⟨.invalidTypeInt, by simp [processTags, readBlob, binaryReadGoInt]⟩
      · have hbcs : (98 : Nat) ∈ cs := by
          rcases List.mem_cons.mp hb with h | h
          · exact absurd h.symm hc98
          · exact h
        by_cases h105 : c = 105
        · subst h105
          simp only [processTags]
          norm_num
          cases hre : readBE 4 s with
          | ok p => exact ih p.2 (acc ++ [.int32Arg p.1]) (st + 4) hbcs htcs
          | err e => exact ⟨e, rfl⟩
          | panicked => exact absurd hre (readBE_ne_panicked _ _)
        by_cases h104 : c = 104
        · subst h104
          simp only [processTags]
          norm_num
          cases hre : readBE 8 s with
          | ok p => exact ih p.2 (acc ++ [.int64Arg p.1]) (st + 8) hbcs htcs
          | err e => exact ⟨e, rfl⟩
          | panicked => exact absurd hre (readBE_ne_panicked _ _)
        by_cases h102 : c = 102
        · subst h102
          simp only [processTags]
          norm_num
          cases hre : readBE 4 s with
          | ok p => exact ih p.2 (acc ++ [.float32Arg p.1]) (st + 4) hbcs htcs
          | err e => exact ⟨e, rfl⟩
          | panicked => exact absurd hre (readBE_ne_panicked _ _)
        by_cases h100 : c = 100
        · subst h100
          simp only [processTags]
          norm_num
          cases hre : readBE 8 s with
          | ok p => exact ih p.2 (acc ++ [.float64Arg p.1]) (st + 8) hbcs htcs
          | err e => exact ⟨e, rfl⟩
          | panicked => exact absurd hre (readBE_ne_panicked _ _)
        by_cases h115 : c = 115
        · subst h115
          simp only [processTags]
          norm_num
          cases hre : readPaddedString s with
          | ok p =>
            exact ih p.2.2 (acc ++ [.stringArg p.1])
              (st + p.1.length + padBytesNeeded p.1.length) hbcs htcs
          | err e => exact ⟨e, rfl⟩
          | panicked => exact absurd hre (readPaddedString_ne_panicked _)
        by_cases h84 : c = 84
        · subst h84
          simp only [processTags]
          norm_num
          exact ih s (acc ++ [.boolArg true]) st hbcs htcs
        by_cases h70 : c = 70
        · subst h70
          simp only [processTags]
          norm_num
          exact ih s (acc ++ [.boolArg false]) st hbcs htcs
        refine ⟨.unsupportedTypeTag c, ?_⟩
        simp [processTags, h105, h104, h102, h100, h115, hc98, hct, h84, h70]


/-- Witness for C9: the tag list consisting of `b` alone fails. -/
theorem c9_witness : ∃ e, processTags [98] [] [] 0 = .err e :=
  c9_blob_decode_fails.2 [98] [] [] 0 (by decide) (by decide)

/-- Counterexample to C9 as stated: this message's wire type-tag string is
`,tb` — it contains the tag `b` (98) — yet decoding succeeds, because the
`t` tag's 8-byte read hits end of input and the source returns success
before ever reaching the `b` tag. -/
theorem c9_counterexample :
    readMessage [47, 0, 0, 0, 44, 116, 98, 0] 0 = .ok (⟨[47], []⟩, [], 8) :=
  rfl

/-- Claim C10: a `t` (116) tag whose 8-byte payload read fails (fewer than 8
bytes remain) makes the argument loop return success with the timetag absent
and the loop abandoned, while for every other payload-bearing tag — `i` 105,
`h` 104, `f` 102, `d` 100, `s` 115, `b` 98 — a failed payload read propagates
as an error. -/
theorem c10_timetag_read_failure_swallowed :
    (∀ (ts : List Nat) (s : Bytes) (acc : List OscArg) (st : Nat), s.length < 8 →
        processTags (116 :: ts) s acc st = .ok (acc, [], st)) ∧
      (∀ (ts : List Nat) (s : Bytes) (acc : List OscArg) (st : Nat), s.length < 4 →
        ∃ e, processTags (105 :: ts) s acc st = .err e) ∧
      (∀ (ts : List Nat) (s : Bytes) (acc : List OscArg) (st : Nat), s.length < 8 →
        ∃ e, processTags (104 :: ts) s acc st = .err e) ∧
      (∀ (ts : List Nat) (s : Bytes) (acc : List OscArg) (st : Nat), s.length < 4 →
        ∃ e, processTags (102 :: ts) s acc st = .err e) ∧
      (∀ (ts : List Nat) (s : Bytes) (acc : List OscArg) (st : Nat), s.length < 8 →
        ∃ e, processTags (100 :: ts) s acc st = .err e) ∧
      (∀ (ts : List Nat) (s : Bytes) (acc : List OscArg) (st : Nat), (0 : Nat) ∉ s →
        ∃ e, processTags (115 :: ts) s acc st = .err e) ∧
      ∀ (ts : List Nat) (s : Bytes) (acc : List OscArg) (st : Nat),
        ∃ e, processTags (98 :: ts) s acc st = .err e := by
  refine ⟨?_, ?_, ?_, ?_, ?_, ?_, ?_⟩
  · intro ts s acc st hlen
    have hre : readBE 8 s = .err .eof := by
      unfold readBE
      rw [if_neg (by omega)]
    simp [processTags, hre]
  · intro ts s acc st hlen
    have hre : readBE 4 s = .err .eof := by
      unfold readBE
      rw [if_neg (by omega)]
    exact ⟨.eof, by simp [processTags, hre]⟩
  · intro ts s acc st hlen
    have hre : readBE 8 s = .err .eof := by
      unfold readBE
      rw [if_neg (by omega)]
    exact ⟨.eof, by simp [processTags, hre]⟩
  · intro ts s acc st hlen
    have hre : readBE 4 s = .err .eof := by
      unfold readBE
      rw [if_neg (by omega)]
    exact ⟨.eof, by simp [processTags, hre]⟩
  · intro ts s acc st hlen
    have hre : readBE 8 s = .err .eof := by
      unfold readBE
      rw [if_neg (by omega)]
    exact ⟨.eof, by simp [processTags, hre]⟩
  · intro ts s acc st hnul
    have hre : readPaddedString s = .err .eof := by
      unfold readPaddedString
      rw [splitAtNul_eq_none s hnul]
    exact ⟨.eof, by simp [processTags, hre]⟩
  · intro ts s acc st
    exact ⟨.invalidTypeInt, by simp [processTags, readBlob, binaryReadGoInt]⟩

/-- Witness for C10: with an empty remaining stream, a lone `t` tag yields
success with no argument, while a lone `i` tag yields an error. -/
theorem c10_witness :
    processTags [116] [] [] 5 = .ok ([], [], 5) ∧
      ∃ e, processTags [105] [] [] 5 = .err e :=
  ⟨c10_timetag_read_failure_swallowed.1 [] [] [] 5 (by decide),
    c10_timetag_read_failure_swallowed.2.1 [] [] [] 5 (by decide)⟩


/-- Claim C6: `AddMsgHandler` returns an error when the address contains any
of the characters `* ? , [ ] { } #` or a space, returns an error when the
address is already registered, and otherwise inserts the handler under the
address; in both error cases the registry is returned unchanged. -/
theorem c6_addMsgHandler_registration (handlers : List (Bytes × Nat)) (addr : Bytes)
    (h : Nat) :
    ((∃ c ∈ forbiddenAddrChars, c ∈ addr) →
        addMsgHandler handlers addr h = (handlers, some .invalidCharacters)) ∧
      ((¬ ∃ c ∈ forbiddenAddrChars, c ∈ addr) → (∃ p ∈ handlers, p.1 = addr) →
        addMsgHandler handlers addr h = (handlers, some .duplicateAddress)) ∧
      ((¬ ∃ c ∈ forbiddenAddrChars, c ∈ addr) → (¬ ∃ p ∈ handlers, p.1 = addr) →
        addMsgHandler handlers addr h = (handlers ++ [(addr, h)], none)) := by
  have hany : (forbiddenAddrChars.any fun c => addr.contains c) = true ↔
      ∃ c ∈ forbiddenAddrChars, c ∈ addr := by
    simp [List.any_eq_true]
  have hex : addressExists addr handlers = true ↔ ∃ p ∈ handlers, p.1 = addr := by
    simp [addressExists, List.any_eq_true]
  refine ⟨?_, ?_, ?_⟩
  · intro hc
    unfold addMsgHandler
    rw [if_pos (hany.mpr hc)]
  · intro hc hdup
    unfold addMsgHandler
    rw [if_neg (fun hb => hc (hany.mp hb)), if_pos (hex.mpr hdup)]
  · intro hc hdup
    unfold addMsgHandler
    rw [if_neg (fun hb => hc (hany.mp hb)), if_neg (fun hb => hdup (hex.mp hb))]


/-- Witness for C6: inserting `/a` into the empty registry succeeds, `/*`
is rejected for its `*`, and re-registering `/a` is rejected as a duplicate —
the registry unchanged in both error cases. -/
theorem c6_witness :
    addMsgHandler ([] : List (Bytes × Nat)) [47, 97] 9 = ([([47, 97], 9)], none) ∧
      addMsgHandler [([47, 97], 9)] [47, 42] 9 =
        ([([47, 97], 9)], some .invalidCharacters) ∧
      addMsgHandler [([47, 97], 9)] [47, 97] 8 =
        ([([47, 97], 9)], some .duplicateAddress) :=
  ⟨(c6_addMsgHandler_registration [] [47, 97] 9).2.2 (by decide) (by decide),
    (c6_addMsgHandler_registration [([47, 97], 9)] [47, 42] 9).1
      ⟨42, by decide, by decide⟩,
    (c6_addMsgHandler_registration [([47, 97], 9)] [47, 97] 8).2.1 (by decide)
      ⟨([47, 97], 9), by decide, by decide⟩⟩
theorem serveStepDelay_min (j : Nat) :
    serveStepDelay (min (5000000 * 2 ^ j) 1000000000) =
      min (5000000 * 2 ^ (j + 1)) 1000000000 := by
  have h1 : 5000000 ≤ 5000000 * 2 ^ j :=
    Nat.le_mul_of_pos_right _ (Nat.pos_pow_of_pos j (by norm_num))
  simp only [serveStepDelay]
  rw [if_neg (by omega : ¬ min (5000000 * 2 ^ j) 1000000000 = 0)]
  rw [pow_succ, ← Nat.mul_assoc]
  split <;> omega

theorem serveRun_sleeps (k : Nat) :
    ∀ d, (serveRun d (List.replicate k .tempErr)).1 =
      (List.range k).map (fun i => serveStepDelay^[i + 1] d) := by
  induction k with
  | zero =>
    intro d
    simp [serveRun]
  | succ k ih =>
    intro d
    rw [List.replicate_succ]
    simp only [serveRun]
    rw [ih (serveStepDelay d)]
    rw [List.range_succ_eq_map, List.map_cons, List.map_map]
    congr 1

theorem iterate_serveStepDelay_zero (i : Nat) :
    serveStepDelay^[i + 1] 0 = min (5000000 * 2 ^ i) 1000000000 := by
  induction i with
  | zero =>
    norm_num [serveStepDelay]
  | succ i ih =>
    rw [Function.iterate_succ_apply', ih, serveStepDelay_min]


/-- Claim C7: in the serve loop, a run of consecutive temporary errors
starting from a reset delay sleeps 5 ms, then doubles each time, capped at
1 s (nanosecond values); a successful receive resets the delay; a
non-transient error stops the loop and is returned. -/
theorem c7_serve_backoff :
    (∀ k : Nat, (serveRun 0 (List.replicate k .tempErr)).1 =
        (List.range k).map (fun i => min (5000000 * 2 ^ i) 1000000000)) ∧
      (∀ (d : Nat) (evs : List NetEvent), serveRun d (.pkt :: evs) = serveRun 0 evs) ∧
      ∀ (d e : Nat) (evs : List NetEvent), serveRun d (.fatalErr e :: evs) = ([], some e) := by
  refine ⟨?_, ?_, ?_⟩
  · intro k
    rw [serveRun_sleeps k 0]
    apply List.map_congr_left
    intro i _
    exact iterate_serveStepDelay_zero i
  · intro d evs
    rfl
  · intro d e evs
    rfl


/-- Claim C4: dispatch of a Message iterates the registered addresses,
testing each against the Message's address translated to a regular
expression, and invokes exactly the handlers whose registered address
matches (each exactly once, in iteration order); in particular a lone
handler registered at the literal `/a/b` is invoked exactly once by a
Message with address `/a/b`. -/
theorem c4_dispatch_matching :
    (∀ (handlers : List (Bytes × Nat)) (msgAddr : Bytes),
        (oscGetRegEx msgAddr).isSome = true →
          dispatchMessage handlers msgAddr =
            .ok ((handlers.filter fun p => oscMatch msgAddr p.1 = some true).map
              Prod.snd)) ∧
      dispatchMessage [([47, 97, 47, 98], 7)] [47, 97, 47, 98] = .ok [7] := by
  constructor
  · intro handlers msgAddr hsome
    obtain ⟨r, hr⟩ := Option.isSome_iff_exists.mp hsome
    induction handlers with
    | nil => simp [dispatchMessage]
    | cons p rest ih =>
      obtain ⟨a, hh⟩ := p
      have hm : oscMatch msgAddr a = some (reMatchString r a) := by
        simp [oscMatch, hr]
      simp only [dispatchMessage, hm, List.filter_cons]
      cases hrb : reMatchString r a with
      | true =>
        rw [ih]
        simp [hm, hrb]
      | false =>
        rw [ih]
        simp [hm, hrb]
  · rfl


/-- Witness for C4: the filter characterization applied to a single handler
registered at `/` and a Message with address `/`. -/
theorem c4_witness : dispatchMessage [([47], 3)] [47] = .ok [3] :=
  (c4_dispatch_matching.1 [([47], 3)] [47] (by decide)).trans (by decide)

end GoOsc
